import Mathlib

/-!
Verification of the frame-loop core of `examples/scene/main.rs`:
the ephemeral-buffer retirement protocol driven by `Example::render` /
`Example::destroy`, and the camera controller driven by the winit event
handlers in `main`.

The retirement protocol is embedded as a state-transition system over
`Example` (the retirement-relevant fields of the Rust `Example` struct)
together with an explicit event trace recording buffer allocations, GPU
submissions, completion-signal waits and buffer destructions.

The camera controller is embedded as a pure transition function over
`LoopState` (camera plus optional drag state), with quaternions modelled
exactly over the reals.
-/

/-- A GPU buffer handle, tagged with the submission (frame) during whose
recording it was allocated and an index distinguishing buffers of the same
frame.  In the source these are the opaque `blade::Buffer` handles collected
into `temp_buffers` / `prev_temp_buffers`. -/
structure Buffer where
  gen : Nat
  idx : Nat
deriving DecidableEq

/-- Observable actions of the frame loop on the GPU context: buffer
allocation during recording, `context.submit` issuing a fresh sync point,
`context.wait_for(&sp, timeout_ms)`, and `context.destroy_buffer`. -/
inductive Event where
  | allocBuffer (b : Buffer)
  | submit (sp : Nat)
  | waitFor (sp timeoutMs : Nat)
  | destroyBuffer (b : Buffer)
deriving DecidableEq

/-- The retirement-relevant fields of the Rust `Example` struct:
`prev_temp_buffers` and `prev_sync_point`.  Sync points are modelled as the
context's submission counter (`submits`), each `submit` returning the next
number; the renderer, GUI painter and window handles are opaque
collaborators and carry no retirement state. -/
structure Example where
  prev_temp_buffers : List Buffer
  prev_sync_point : Option Nat
  submits : Nat
deriving DecidableEq

/-- The timeout argument `!0` (all bits set, as `u32`) that `main.rs` passes
to every `context.wait_for` call; per the spec this sentinel denotes the
effectively-unbounded wait. -/
def unboundedTimeoutMs : Nat := 2 ^ 32 - 1

/-- Modelled from the spec: the GPU context's completion-signal wait,
`wait(signal, timeout) -> resolved | timed_out` (spec sect. 6); the
`wait_for` implementation itself is repository code outside `src/`.  Per the
spec's design notes, the all-ones timeout is the effectively-unbounded wait
that blocks until the signal resolves, so it reports resolved regardless of
the GPU's resolve time; a bounded timeout reports resolved only when the
signal resolves within it. -/
def waitResolves (resolveTime timeoutMs : Nat) : Bool :=
  timeoutMs == unboundedTimeoutMs || decide (resolveTime ≤ timeoutMs)

/-- The temp buffers allocated while recording a frame on state `s`
(filled into `temp_buffers` by `renderer.prepare`); the frame's submit will
return sync point `s.submits`, so they are tagged with it.  `k` is the
number of buffers the renderer chooses to allocate this frame. -/
def newBuffers (s : Example) (k : Nat) : List Buffer :=
  (List.range k).map fun i => ⟨s.submits, i⟩

/-- State update of `Example::render` (main.rs lines 81-126): submit the
frame, then, if a previous sync point exists, wait on it and destroy all of
`prev_temp_buffers`; finally the just-submitted sync point becomes
`prev_sync_point` and the freshly allocated buffers are appended to
`prev_temp_buffers`. -/
def renderState (s : Example) (k : Nat) : Example :=
  match s.prev_sync_point with
  | some _ => ⟨newBuffers s k, some s.submits, s.submits + 1⟩
  | none => ⟨s.prev_temp_buffers ++ newBuffers s k, some s.submits, s.submits + 1⟩

/-- Event trace of one `Example::render` call: allocations during recording,
the submit, then (when a previous sync point exists) the retirement wait
with timeout `!0` followed by destruction of every previously pending
buffer. -/
def renderEvents (s : Example) (k : Nat) : List Event :=
  ((newBuffers s k).map Event.allocBuffer) ++
    Event.submit s.submits ::
      (match s.prev_sync_point with
       | some sp =>
         Event.waitFor sp unboundedTimeoutMs :: s.prev_temp_buffers.map Event.destroyBuffer
       | none => [])

/-- State update of `Example::destroy` (main.rs lines 70-79): all pending
buffers are drained and the sync point is taken. -/
def destroyState (s : Example) : Example :=
  ⟨[], none, s.submits⟩

/-- Event trace of `Example::destroy`: wait on the pending sync point with
timeout `!0` (if one exists), then destroy every pending buffer. -/
def destroyEvents (s : Example) : List Event :=
  (match s.prev_sync_point with
   | some sp => [Event.waitFor sp unboundedTimeoutMs]
   | none => []) ++ s.prev_temp_buffers.map Event.destroyBuffer

/-- Iterated frames: the state after rendering a sequence of frames, the
`i`-th allocating `frames[i]` temp buffers. -/
def runState (s : Example) (frames : List Nat) : Example :=
  frames.foldl renderState s

/-- Event trace of a sequence of rendered frames. -/
def runEvents (s : Example) : List Nat → List Event
  | [] => []
  | k :: rest => renderEvents s k ++ runEvents (renderState s k) rest

/-- The state before `Example::new`: no buffers, no sync point, no
submissions yet.  `Example::new` itself acts exactly like a first render
step: it allocates the glTF upload buffers, submits them as sync point `0`
and installs them as the pending generation without any drain. -/
def emptyExample : Example :=
  ⟨[], none, 0⟩

/-- The complete trace of a program run: `Example::new` with `initK` glTF
upload buffers (the first step), then the rendered frames, then
`Example::destroy` at shutdown. -/
def fullTrace (initK : Nat) (frames : List Nat) : List Event :=
  runEvents emptyExample (initK :: frames) ++
    destroyEvents (runState emptyExample (initK :: frames))

/-- Reachability invariant of the retirement state: every pending buffer
belongs to the generation of the pending sync point, which predates the
submission counter. -/
def RetireInv (s : Example) : Prop :=
  ∀ b ∈ s.prev_temp_buffers, some b.gen = s.prev_sync_point ∧ b.gen < s.submits

/-- Scan of a trace checking that every buffer destruction is preceded by a
wait on that buffer's generation's sync point. -/
def checkSafe (waited : List Nat) : List Event → Bool
  | [] => true
  | Event.destroyBuffer b :: rest => decide (b.gen ∈ waited) && checkSafe waited rest
  | Event.waitFor sp _ :: rest => checkSafe (sp :: waited) rest
  | _ :: rest => checkSafe waited rest

/-- The sync points waited on in a trace, accumulated onto `w`. -/
def collectWaits (w : List Nat) (tr : List Event) : List Nat :=
  tr.foldl (fun acc e => match e with | Event.waitFor sp _ => sp :: acc | _ => acc) w

/-- The timeout arguments of all waits in a trace. -/
def eventTimeouts (tr : List Event) : List Nat :=
  tr.filterMap fun e => match e with
    | Event.waitFor _ t => some t
    | _ => none

/-- The buffers allocated in a trace. -/
def allocsIn (tr : List Event) : List Buffer :=
  tr.filterMap fun e => match e with
    | Event.allocBuffer b => some b
    | _ => none

/-- Effect of one event on the multiset of live (allocated, not yet
destroyed) buffers. -/
def applyEvent (acc : List Buffer) (e : Event) : List Buffer :=
  match e with
  | Event.allocBuffer b => acc ++ [b]
  | Event.destroyBuffer b => acc.filter fun x => decide (x ≠ b)
  | _ => acc

/-- Live buffers after a trace, starting from `acc`. -/
def liveBuffers (acc : List Buffer) (tr : List Event) : List Buffer :=
  tr.foldl applyEvent acc

/-- Live buffers after a trace of the program (which starts with nothing
allocated). -/
def liveAfter (tr : List Event) : List Buffer :=
  liveBuffers [] tr

noncomputable section

/-- 3-vector over the reals (the model of `glam::Vec3` / `mint` positions;
`f32` arithmetic is idealised as exact real arithmetic). -/
@[ext]
structure Vec3 where
  x : ℝ
  y : ℝ
  z : ℝ

/-- Componentwise vector addition. -/
def Vec3.add (a b : Vec3) : Vec3 :=
  ⟨a.x + b.x, a.y + b.y, a.z + b.z⟩

/-- Scalar multiple of a vector. -/
def Vec3.smul (r : ℝ) (v : Vec3) : Vec3 :=
  ⟨r * v.x, r * v.y, r * v.z⟩

/-- `glam::Quat::from_rotation_x(a)`: rotation by angle `a` about the x
axis, as the quaternion with real part `cos (a/2)` and `i` part
`sin (a/2)`. -/
def from_rotation_x (a : ℝ) : Quaternion ℝ :=
  ⟨Real.cos (a / 2), Real.sin (a / 2), 0, 0⟩

/-- `glam::Quat::from_rotation_y(a)`: rotation by angle `a` about the y
axis. -/
def from_rotation_y (a : ℝ) : Quaternion ℝ :=
  ⟨Real.cos (a / 2), 0, Real.sin (a / 2), 0⟩

/-- `glam::Quat::from_rotation_z(a)`: rotation by angle `a` about the z
axis. -/
def from_rotation_z (a : ℝ) : Quaternion ℝ :=
  ⟨Real.cos (a / 2), 0, 0, Real.sin (a / 2)⟩

/-- A vector as a purely imaginary quaternion. -/
def quat_of_vec (v : Vec3) : Quaternion ℝ :=
  ⟨0, v.x, v.y, v.z⟩

/-- Rotation of a vector by a quaternion (`glam`'s `Quat * Vec3`): the
imaginary part of the conjugation sandwich `q * v * q̄`, which for unit `q`
is the rotation the source relies on. -/
def rotate_vec (q : Quaternion ℝ) (v : Vec3) : Vec3 :=
  ⟨(q * quat_of_vec v * star q).imI,
   (q * quat_of_vec v * star q).imJ,
   (q * quat_of_vec v * star q).imK⟩

/-- The `blade_render::Camera` fields used by the example: position,
orientation, vertical field of view and far-plane depth. -/
structure Camera where
  pos : Vec3
  rot : Quaternion ℝ
  fov_y : ℝ
  depth : ℝ

/-- `Example::move_camera_by` (main.rs lines 145-148): translate the
position by the offset rotated into world space by the current
orientation. -/
def move_camera_by (c : Camera) (offset : Vec3) : Camera :=
  { c with pos := c.pos.add (rotate_vec c.rot offset) }

/-- `Example::rotate_camera_z_by` (main.rs lines 149-152): compose a z-axis
rotation onto the current orientation. -/
def rotate_camera_z_by (c : Camera) (angle : ℝ) : Camera :=
  { c with rot := c.rot * from_rotation_z angle }

/-- `move_speed` from `main` (1.0). -/
def move_speed : ℝ := 1.0

/-- `rotate_speed` from `main` (0.01). -/
def rotate_speed : ℝ := 0.01

/-- `rotate_speed_z` from `main` (0.1). -/
def rotate_speed_z : ℝ := 0.1

/-- The `Drag` struct from `main`: the optional reference screen position
and the orientation snapshot taken at button press. -/
structure Drag where
  screen_pos : Option (ℝ × ℝ)
  rotation : Quaternion ℝ

/-- The mutable state the event loop threads through the input handlers:
the camera and the optional drag (`drag_start`). -/
structure LoopState where
  camera : Camera
  drag_start : Option Drag

/-- The keyboard keys handled by the example's `KeyboardInput` match arm. -/
inductive Key where
  | w | s | a | d | z | x | q | e | escape

/-- The `KeyboardInput` handling of `main` (lines 215-244): W/S translate
along camera-local z, A/D along x, Z/X along y, Q/E compose the fixed
z-rotation; Escape only touches the control flow. -/
def handle_key (st : LoopState) (k : Key) : LoopState :=
  match k with
  | Key.w => { st with camera := move_camera_by st.camera ⟨0, 0, move_speed⟩ }
  | Key.s => { st with camera := move_camera_by st.camera ⟨0, 0, -move_speed⟩ }
  | Key.a => { st with camera := move_camera_by st.camera ⟨-move_speed, 0, 0⟩ }
  | Key.d => { st with camera := move_camera_by st.camera ⟨move_speed, 0, 0⟩ }
  | Key.z => { st with camera := move_camera_by st.camera ⟨0, -move_speed, 0⟩ }
  | Key.x => { st with camera := move_camera_by st.camera ⟨0, move_speed, 0⟩ }
  | Key.q => { st with camera := rotate_camera_z_by st.camera rotate_speed_z }
  | Key.e => { st with camera := rotate_camera_z_by st.camera (-rotate_speed_z) }
  | Key.escape => st

/-- The window events relevant to the camera controller: key press, left
mouse button press/release, pointer move. -/
inductive InputEvent where
  | key_pressed (k : Key)
  | mouse_left (pressed : Bool)
  | cursor_moved (px py : ℝ)

/-- The `WindowEvent` handling of `main` (lines 206-277): key presses are
dispatched to `handle_key`; a left-button press starts a drag with the
current orientation snapshot and no reference position, a release ends it;
a pointer move while dragging either records the reference position (first
move) or, once a reference exists, recomputes the orientation as
`drag.rotation * qy * qx` with `qx`/`qy` the yaw/pitch rotations scaled
from the pointer displacement. -/
def handle_event (st : LoopState) (ev : InputEvent) : LoopState :=
  match ev with
  | InputEvent.key_pressed k => handle_key st k
  | InputEvent.mouse_left true =>
    { st with drag_start := some ⟨none, st.camera.rot⟩ }
  | InputEvent.mouse_left false =>
    { st with drag_start := none }
  | InputEvent.cursor_moved px py =>
    match st.drag_start with
    | none => st
    | some drag =>
      match drag.screen_pos with
      | some r =>
        { st with camera :=
          { st.camera with rot :=
            drag.rotation * from_rotation_x ((py - r.2) * rotate_speed) *
              from_rotation_y ((px - r.1) * rotate_speed) } }
      | none =>
        { st with drag_start := some ⟨some (px, py), drag.rotation⟩ }

/-- A sequence of window events folded through the handler. -/
def run_input (st : LoopState) (evs : List InputEvent) : LoopState :=
  evs.foldl handle_event st

/-- Stated from the spec, for comparison with the code: the orientation a
tracking drag with snapshot `base`, rotate speed `k` and reference
`(rx, ry)` must produce at pointer position `(px, py)`:
`base_rotation ∘ pitch (k·(py − ry)) ∘ yaw (k·(px − rx))`, where pitch
rotates about the horizontal (x) axis and yaw about the vertical (y)
axis. -/
def spec_drag_orientation (base : Quaternion ℝ) (k rx ry px py : ℝ) : Quaternion ℝ :=
  base * from_rotation_x (k * (py - ry)) * from_rotation_y (k * (px - rx))

/-- A camera with the starting position of `main` and identity orientation
(the configuration named by the spec's forward-translation scenario). -/
def forward_scenario_camera : Camera :=
  ⟨⟨2.7, 1.6, 2.1⟩, 1, 0.8, 1000⟩

/-- One press of the forward-translation key W. -/
def press_forward (c : Camera) : Camera :=
  move_camera_by c ⟨0, 0, move_speed⟩

/-- `n` presses of the forward-translation key W. -/
def press_forward_n : Nat → Camera → Camera
  | 0, c => c
  | n + 1, c => press_forward_n n (press_forward c)

end

theorem mem_newBuffers {s : Example} {k : Nat} {b : Buffer}
    (h : b ∈ newBuffers s k) : b.gen = s.submits := by
  simp only [newBuffers, List.mem_map, List.mem_range] at h
  obtain ⟨i, _, rfl⟩ := h
  rfl

theorem retireInv_empty : RetireInv emptyExample := by
  intro b hb
  simp [emptyExample] at hb

theorem retireInv_renderState {s : Example} (k : Nat) (h : RetireInv s) :
    RetireInv (renderState s k) := by
  obtain ⟨bufs, osp, n⟩ := s
  intro b hb
  cases osp with
  | some sp =>
    simp only [renderState] at hb ⊢
    have := mem_newBuffers hb
    simp_all
  | none =>
    simp only [renderState, List.mem_append] at hb ⊢
    rcases hb with hb | hb
    · exact absurd (h b hb).1 (by simp)
    · have := mem_newBuffers hb
      simp_all

theorem retireInv_runState {frames : List Nat} {s : Example} (h : RetireInv s) :
    RetireInv (runState s frames) := by
  induction frames generalizing s with
  | nil => exact h
  | cons k rest ih =>
    have hrw : runState s (k :: rest) = runState (renderState s k) rest := rfl
    rw [hrw]
    exact ih (retireInv_renderState k h)

theorem prev_nil_of_none {s : Example} (h : RetireInv s)
    (hsp : s.prev_sync_point = none) : s.prev_temp_buffers = [] := by
  cases hl : s.prev_temp_buffers with
  | nil => rfl
  | cons b t =>
    have hm := (h b (by rw [hl]; simp)).1
    rw [hsp] at hm
    exact absurd hm (by simp)

theorem checkSafe_allocs (w : List Nat) (l : List Buffer) (rest : List Event) :
    checkSafe w (l.map Event.allocBuffer ++ rest) = checkSafe w rest := by
  induction l with
  | nil => rfl
  | cons b l ih => simpa [checkSafe] using ih

theorem checkSafe_destroys (w : List Nat) (l : List Buffer)
    (h : ∀ b ∈ l, b.gen ∈ w) : checkSafe w (l.map Event.destroyBuffer) = true := by
  induction l with
  | nil => rfl
  | cons b l ih =>
    simp only [List.map_cons, checkSafe, Bool.and_eq_true, decide_eq_true_eq]
    exact ⟨h b (by simp), ih fun b' hb' => h b' (by simp [hb'])⟩

theorem checkSafe_renderEvents (w : List Nat) (s : Example) (k : Nat)
    (h : RetireInv s) : checkSafe w (renderEvents s k) = true := by
  obtain ⟨bufs, osp, n⟩ := s
  rw [renderEvents, checkSafe_allocs]
  cases osp with
  | some sp =>
    show checkSafe (sp :: w) (bufs.map Event.destroyBuffer) = true
    apply checkSafe_destroys
    intro b hb
    have hg := (h b hb).1
    simp only [Option.some_inj] at hg
    simp [hg]
  | none => rfl

theorem checkSafe_destroyEvents (w : List Nat) (s : Example)
    (h : RetireInv s) : checkSafe w (destroyEvents s) = true := by
  obtain ⟨bufs, osp, n⟩ := s
  cases osp with
  | some sp =>
    show checkSafe (sp :: w) (bufs.map Event.destroyBuffer) = true
    apply checkSafe_destroys
    intro b hb
    have hg := (h b hb).1
    simp only [Option.some_inj] at hg
    simp [hg]
  | none =>
    have hnil := prev_nil_of_none h rfl
    simp only at hnil
    rw [destroyEvents]
    simp only [hnil]
    rfl

theorem checkSafe_append (w : List Nat) (t₁ t₂ : List Event) :
    checkSafe w (t₁ ++ t₂) = (checkSafe w t₁ && checkSafe (collectWaits w t₁) t₂) := by
  induction t₁ generalizing w with
  | nil => simp [collectWaits, checkSafe]
  | cons e t₁ ih =>
    cases e with
    | allocBuffer b => simpa [checkSafe, collectWaits] using ih w
    | submit sp => simpa [checkSafe, collectWaits] using ih w
    | waitFor sp t => simpa [checkSafe, collectWaits] using ih (sp :: w)
    | destroyBuffer b =>
      simp [checkSafe, collectWaits, ih w, Bool.and_assoc]

theorem checkSafe_runEvents (w : List Nat) (frames : List Nat) (s : Example)
    (h : RetireInv s) : checkSafe w (runEvents s frames) = true := by
  induction frames generalizing s w with
  | nil => rfl
  | cons k rest ih =>
    rw [runEvents, checkSafe_append, checkSafe_renderEvents w s k h,
      ih _ _ (retireInv_renderState k h)]
    rfl

theorem checkSafe_fullTrace (initK : Nat) (frames : List Nat) :
    checkSafe [] (fullTrace initK frames) = true := by
  rw [fullTrace, checkSafe_append,
    checkSafe_runEvents _ _ _ retireInv_empty,
    checkSafe_destroyEvents _ _ (retireInv_runState retireInv_empty)]
  rfl

theorem checkSafe_split {tr : List Event} {w : List Nat} (hc : checkSafe w tr = true)
    {p₁ p₂ : List Event} {b : Buffer}
    (h : tr = p₁ ++ Event.destroyBuffer b :: p₂) :
    b.gen ∈ w ∨ ∃ t, Event.waitFor b.gen t ∈ p₁ := by
  induction p₁ generalizing tr w with
  | nil =>
    subst h
    simp only [List.nil_append, checkSafe, Bool.and_eq_true, decide_eq_true_eq] at hc
    exact Or.inl hc.1
  | cons e p₁ ih =>
    subst h
    cases e with
    | allocBuffer b' =>
      rcases ih (by simpa [checkSafe] using hc) rfl with h1 | ⟨t, ht⟩
      · exact Or.inl h1
      · exact Or.inr ⟨t, by simp [ht]⟩
    | submit sp =>
      rcases ih (by simpa [checkSafe] using hc) rfl with h1 | ⟨t, ht⟩
      · exact Or.inl h1
      · exact Or.inr ⟨t, by simp [ht]⟩
    | destroyBuffer b' =>
      have hc2 : b'.gen ∈ w ∧ checkSafe w (p₁ ++ Event.destroyBuffer b :: p₂) = true := by
        simpa [checkSafe] using hc
      rcases ih hc2.2 rfl with h1 | ⟨t, ht⟩
      · exact Or.inl h1
      · exact Or.inr ⟨t, by simp [ht]⟩
    | waitFor sp t' =>
      have hc' : checkSafe (sp :: w) (p₁ ++ Event.destroyBuffer b :: p₂) = true := by
        simpa [checkSafe] using hc
      rcases ih hc' rfl with h1 | ⟨t, ht⟩
      · rcases List.mem_cons.mp h1 with hg | h2
        · exact Or.inr ⟨t', by simp [hg]⟩
        · exact Or.inl h2
      · exact Or.inr ⟨t, by simp [ht]⟩

theorem eventTimeouts_append (t₁ t₂ : List Event) :
    eventTimeouts (t₁ ++ t₂) = eventTimeouts t₁ ++ eventTimeouts t₂ := by
  simp [eventTimeouts]

theorem eventTimeouts_map_alloc (l : List Buffer) :
    eventTimeouts (l.map Event.allocBuffer) = [] := by
  simp [eventTimeouts]

theorem eventTimeouts_map_destroy (l : List Buffer) :
    eventTimeouts (l.map Event.destroyBuffer) = [] := by
  simp [eventTimeouts]

theorem eventTimeouts_renderEvents_mem {s : Example} {k t : Nat}
    (h : t ∈ eventTimeouts (renderEvents s k)) : t = unboundedTimeoutMs := by
  obtain ⟨bufs, osp, n⟩ := s
  rw [renderEvents, eventTimeouts_append, eventTimeouts_map_alloc] at h
  cases osp with
  | some sp =>
    have hrw : eventTimeouts (Event.submit n ::
        Event.waitFor sp unboundedTimeoutMs :: bufs.map Event.destroyBuffer) =
        unboundedTimeoutMs :: eventTimeouts (bufs.map Event.destroyBuffer) := rfl
    rw [List.nil_append, hrw, eventTimeouts_map_destroy] at h
    simpa using h
  | none => simp [eventTimeouts] at h

theorem eventTimeouts_destroyEvents_mem {s : Example} {t : Nat}
    (h : t ∈ eventTimeouts (destroyEvents s)) : t = unboundedTimeoutMs := by
  obtain ⟨bufs, osp, n⟩ := s
  rw [destroyEvents, eventTimeouts_append, eventTimeouts_map_destroy] at h
  cases osp with
  | some sp => simpa [eventTimeouts] using h
  | none => simp [eventTimeouts] at h

theorem eventTimeouts_runEvents_mem {frames : List Nat} {s : Example} {t : Nat}
    (h : t ∈ eventTimeouts (runEvents s frames)) : t = unboundedTimeoutMs := by
  induction frames generalizing s with
  | nil => simp [runEvents, eventTimeouts] at h
  | cons k rest ih =>
    rw [runEvents, eventTimeouts_append] at h
    rcases List.mem_append.mp h with h1 | h2
    · exact eventTimeouts_renderEvents_mem h1
    · exact ih h2

theorem eventTimeouts_fullTrace_mem {initK : Nat} {frames : List Nat} {t : Nat}
    (h : t ∈ eventTimeouts (fullTrace initK frames)) : t = unboundedTimeoutMs := by
  rw [fullTrace, eventTimeouts_append] at h
  rcases List.mem_append.mp h with h1 | h2
  · exact eventTimeouts_runEvents_mem h1
  · exact eventTimeouts_destroyEvents_mem h2

theorem timeout_mem_of_wait_mem {tr : List Event} {sp t : Nat}
    (h : Event.waitFor sp t ∈ tr) : t ∈ eventTimeouts tr := by
  rw [eventTimeouts]
  exact List.mem_filterMap.mpr ⟨Event.waitFor sp t, h, rfl⟩

theorem waitResolves_unbounded (rt : Nat) : waitResolves rt unboundedTimeoutMs = true := by
  simp [waitResolves]

/-- C1: a buffer allocated while recording frame N is never destroyed before
a wait on frame N's completion signal appears earlier in the trace, and that
wait (issued with the unbounded timeout) is guaranteed to have been observed
resolved; this holds over the whole program trace, covering both the
per-frame retirement step in `render` and the shutdown drain in
`destroy`. -/
theorem C1_freed_only_after_resolved_wait (initK : Nat) (frames : List Nat)
    (p₁ p₂ : List Event) (b : Buffer)
    (h : fullTrace initK frames = p₁ ++ Event.destroyBuffer b :: p₂) :
    ∃ t, Event.waitFor b.gen t ∈ p₁ ∧ ∀ rt, waitResolves rt t = true := by
  rcases checkSafe_split (checkSafe_fullTrace initK frames) h with h1 | ⟨t, ht⟩
  · simp at h1
  · refine ⟨t, ht, ?_⟩
    have hmem : Event.waitFor b.gen t ∈ fullTrace initK frames := by
      rw [h]
      exact List.mem_append_left _ ht
    have hu := eventTimeouts_fullTrace_mem (timeout_mem_of_wait_mem hmem)
    subst hu
    exact waitResolves_unbounded

theorem C1_witness :
    ∃ t, Event.waitFor 0 t ∈
        [Event.allocBuffer ⟨0, 0⟩, Event.submit 0, Event.allocBuffer ⟨1, 0⟩,
          Event.submit 1, Event.waitFor 0 unboundedTimeoutMs] ∧
      ∀ rt, waitResolves rt t = true :=
  C1_freed_only_after_resolved_wait 1 [1]
    [Event.allocBuffer ⟨0, 0⟩, Event.submit 0, Event.allocBuffer ⟨1, 0⟩,
      Event.submit 1, Event.waitFor 0 unboundedTimeoutMs]
    [Event.waitFor 1 unboundedTimeoutMs, Event.destroyBuffer ⟨1, 0⟩]
    ⟨0, 0⟩ rfl

/-- C2: on a state with a pending generation (sync point `sp`), the
retirement step inside `render` submits the new frame, then waits on `sp`
and frees every buffer of the pending generation before the just-submitted
generation becomes the (only) pending one; consequently every buffer
allocated while recording this frame is destroyed during the next frame's
retirement step, i.e. no later than frame N+2. -/
theorem C2_drain_then_install (s : Example) (k sp : Nat)
    (hsp : s.prev_sync_point = some sp) :
    renderEvents s k =
      (newBuffers s k).map Event.allocBuffer ++ Event.submit s.submits ::
        Event.waitFor sp unboundedTimeoutMs ::
          s.prev_temp_buffers.map Event.destroyBuffer
    ∧ (∀ b ∈ s.prev_temp_buffers, Event.destroyBuffer b ∈ renderEvents s k)
    ∧ (renderState s k).prev_temp_buffers = newBuffers s k
    ∧ (renderState s k).prev_sync_point = some s.submits
    ∧ ∀ b ∈ newBuffers s k, ∀ k',
        Event.destroyBuffer b ∈ renderEvents (renderState s k) k' := by
  obtain ⟨bufs, osp, n⟩ := s
  simp only at hsp
  subst hsp
  refine ⟨rfl, ?_, rfl, rfl, ?_⟩
  · intro b hb
    apply List.mem_append_right
    exact List.mem_cons_of_mem _ (List.mem_cons_of_mem _ (List.mem_map_of_mem _ hb))
  · intro b hb k'
    apply List.mem_append_right
    exact List.mem_cons_of_mem _ (List.mem_cons_of_mem _ (List.mem_map_of_mem _ hb))

theorem C2_witness :
    renderEvents ⟨[⟨0, 0⟩], some 0, 1⟩ 1 =
      (newBuffers ⟨[⟨0, 0⟩], some 0, 1⟩ 1).map Event.allocBuffer ++ Event.submit 1 ::
        Event.waitFor 0 unboundedTimeoutMs :: [Buffer.mk 0 0].map Event.destroyBuffer
    ∧ (∀ b ∈ [Buffer.mk 0 0],
        Event.destroyBuffer b ∈ renderEvents ⟨[⟨0, 0⟩], some 0, 1⟩ 1)
    ∧ (renderState ⟨[⟨0, 0⟩], some 0, 1⟩ 1).prev_temp_buffers =
        newBuffers ⟨[⟨0, 0⟩], some 0, 1⟩ 1
    ∧ (renderState ⟨[⟨0, 0⟩], some 0, 1⟩ 1).prev_sync_point = some 1
    ∧ ∀ b ∈ newBuffers ⟨[⟨0, 0⟩], some 0, 1⟩ 1, ∀ k',
        Event.destroyBuffer b ∈ renderEvents (renderState ⟨[⟨0, 0⟩], some 0, 1⟩ 1) k' :=
  C2_drain_then_install ⟨[⟨0, 0⟩], some 0, 1⟩ 1 0 rfl

/-- C3 counterexample: in the concrete run with one glTF buffer and one
rendered frame, every completion-signal wait the program performs (in
particular the mid-loop retirement wait) uses the unbounded `!0` timeout —
none is below the unbounded sentinel, so no bounded policy timeout exists —
the unbounded wait can never report timed out (so no "device stalled"
condition can ever arise), and the pending buffer is nevertheless freed.
This refutes the claim that the retirement wait is bounded with a
reportable timeout. -/
theorem C3_counterexample :
    eventTimeouts (fullTrace 1 [1]) = [unboundedTimeoutMs, unboundedTimeoutMs]
    ∧ (∀ t ∈ eventTimeouts (fullTrace 1 [1]), ¬ t < unboundedTimeoutMs)
    ∧ (∀ rt, waitResolves rt unboundedTimeoutMs = true)
    ∧ Event.destroyBuffer ⟨0, 0⟩ ∈ fullTrace 1 [1] :=
  ⟨rfl, by decide, waitResolves_unbounded, by decide⟩

/-- C3 amended: the mid-loop retirement wait (like the shutdown wait) is
unbounded — every wait in every program trace passes the `!0` sentinel
timeout, which is always observed resolved and never reports timed out, so
no bounded policy timeout and no distinct device-stalled condition exist;
the buffers are freed after the wait returns. -/
theorem C3_amended_waits_unbounded (initK : Nat) (frames : List Nat) (t : Nat)
    (h : t ∈ eventTimeouts (fullTrace initK frames)) :
    t = unboundedTimeoutMs ∧ ∀ rt, waitResolves rt t = true := by
  have hu := eventTimeouts_fullTrace_mem h
  subst hu
  exact ⟨rfl, waitResolves_unbounded⟩

theorem C3_amended_witness :
    unboundedTimeoutMs = unboundedTimeoutMs
    ∧ ∀ rt, waitResolves rt unboundedTimeoutMs = true :=
  C3_amended_waits_unbounded 1 [1] unboundedTimeoutMs (by decide)

theorem liveBuffers_append (acc : List Buffer) (t₁ t₂ : List Event) :
    liveBuffers acc (t₁ ++ t₂) = liveBuffers (liveBuffers acc t₁) t₂ := by
  simp [liveBuffers, List.foldl_append]

theorem liveBuffers_map_alloc (acc : List Buffer) (l : List Buffer) :
    liveBuffers acc (l.map Event.allocBuffer) = acc ++ l := by
  induction l generalizing acc with
  | nil => simp [liveBuffers]
  | cons b l ih =>
    show liveBuffers (acc ++ [b]) (l.map Event.allocBuffer) = acc ++ b :: l
    rw [ih]
    simp

theorem liveBuffers_map_destroy (acc : List Buffer) (l : List Buffer) :
    liveBuffers acc (l.map Event.destroyBuffer) = acc.filter fun x => decide (x ∉ l) := by
  induction l generalizing acc with
  | nil => simp [liveBuffers]
  | cons b l ih =>
    show liveBuffers (acc.filter fun x => decide (x ≠ b)) (l.map Event.destroyBuffer)
        = acc.filter fun x => decide (x ∉ b :: l)
    rw [ih, List.filter_filter]
    apply List.filter_congr
    intro x _
    by_cases hb : x = b <;> by_cases hl : x ∈ l <;> simp [hb, hl]

theorem allocsIn_append (t₁ t₂ : List Event) :
    allocsIn (t₁ ++ t₂) = allocsIn t₁ ++ allocsIn t₂ := by
  simp [allocsIn]

theorem allocsIn_map_alloc (l : List Buffer) :
    allocsIn (l.map Event.allocBuffer) = l := by
  induction l with
  | nil => rfl
  | cons b l ih =>
    show b :: allocsIn (l.map Event.allocBuffer) = b :: l
    rw [ih]

theorem allocsIn_map_destroy (l : List Buffer) :
    allocsIn (l.map Event.destroyBuffer) = [] := by
  induction l with
  | nil => rfl
  | cons b l ih =>
    show allocsIn (l.map Event.destroyBuffer) = []
    exact ih

theorem mem_liveBuffers {x : Buffer} {tr : List Event} {acc : List Buffer}
    (h : x ∈ liveBuffers acc tr) : x ∈ acc ∨ x ∈ allocsIn tr := by
  induction tr generalizing acc with
  | nil => exact Or.inl h
  | cons e tr ih =>
    cases e with
    | allocBuffer b =>
      have h' : x ∈ liveBuffers (acc ++ [b]) tr := h
      rcases ih h' with h1 | h2
      · rcases List.mem_append.mp h1 with ha | hb
        · exact Or.inl ha
        · right
          show x ∈ b :: allocsIn tr
          simp at hb
          simp [hb]
      · right
        show x ∈ b :: allocsIn tr
        exact List.mem_cons_of_mem _ h2
    | submit sp =>
      have h' : x ∈ liveBuffers acc tr := h
      rcases ih h' with h1 | h2
      · exact Or.inl h1
      · exact Or.inr h2
    | waitFor sp t =>
      have h' : x ∈ liveBuffers acc tr := h
      rcases ih h' with h1 | h2
      · exact Or.inl h1
      · exact Or.inr h2
    | destroyBuffer b =>
      have h' : x ∈ liveBuffers (acc.filter fun y => decide (y ≠ b)) tr := h
      rcases ih h' with h1 | h2
      · exact Or.inl (List.mem_filter.mp h1).1
      · exact Or.inr h2

theorem allocsIn_renderEvents (s : Example) (k : Nat) :
    allocsIn (renderEvents s k) = newBuffers s k := by
  obtain ⟨bufs, osp, n⟩ := s
  rw [renderEvents, allocsIn_append, allocsIn_map_alloc]
  cases osp with
  | some sp =>
    show _ ++ allocsIn (bufs.map Event.destroyBuffer) = _
    rw [allocsIn_map_destroy, List.append_nil]
  | none =>
    show newBuffers ⟨bufs, none, n⟩ k ++ allocsIn [Event.submit n] =
      newBuffers ⟨bufs, none, n⟩ k
    rw [show allocsIn [Event.submit n] = [] from rfl, List.append_nil]

theorem allocsIn_destroyEvents (s : Example) :
    allocsIn (destroyEvents s) = [] := by
  obtain ⟨bufs, osp, n⟩ := s
  cases osp with
  | some sp =>
    show allocsIn (bufs.map Event.destroyBuffer) = []
    exact allocsIn_map_destroy bufs
  | none => exact allocsIn_map_destroy bufs

theorem liveBuffers_renderEvents (s : Example) (k : Nat) (h : RetireInv s) :
    liveBuffers s.prev_temp_buffers (renderEvents s k) =
      (renderState s k).prev_temp_buffers := by
  obtain ⟨bufs, osp, n⟩ := s
  cases osp with
  | some sp =>
    rw [renderEvents]
    show liveBuffers bufs (_ ++ _) = newBuffers ⟨bufs, some sp, n⟩ k
    rw [liveBuffers_append, liveBuffers_map_alloc]
    show liveBuffers (bufs ++ newBuffers ⟨bufs, some sp, n⟩ k)
        (bufs.map Event.destroyBuffer) = newBuffers ⟨bufs, some sp, n⟩ k
    rw [liveBuffers_map_destroy, List.filter_append]
    have h1 : (bufs.filter fun x => decide (x ∉ bufs)) = [] := by
      apply List.filter_eq_nil_iff.mpr
      intro x hx
      simp [hx]
    have h2 : ((newBuffers ⟨bufs, some sp, n⟩ k).filter fun x => decide (x ∉ bufs)) =
        newBuffers ⟨bufs, some sp, n⟩ k := by
      apply List.filter_eq_self.mpr
      intro x hx
      have hg := mem_newBuffers hx
      simp only [decide_eq_true_eq]
      intro hxb
      have hlt := (h x hxb).2
      rw [hg] at hlt
      exact absurd hlt (lt_irrefl n)
    rw [h1, h2, List.nil_append]
  | none =>
    rw [renderEvents]
    show liveBuffers bufs (_ ++ _) = bufs ++ newBuffers ⟨bufs, none, n⟩ k
    rw [liveBuffers_append, liveBuffers_map_alloc]
    rfl

theorem liveBuffers_runEvents (frames : List Nat) (s : Example) (h : RetireInv s) :
    liveBuffers s.prev_temp_buffers (runEvents s frames) =
      (runState s frames).prev_temp_buffers := by
  induction frames generalizing s with
  | nil => rfl
  | cons k rest ih =>
    rw [runEvents, liveBuffers_append, liveBuffers_renderEvents s k h]
    exact ih _ (retireInv_renderState k h)

theorem liveBuffers_destroyEvents (s : Example) :
    liveBuffers s.prev_temp_buffers (destroyEvents s) = [] := by
  obtain ⟨bufs, osp, n⟩ := s
  have key : liveBuffers bufs (bufs.map Event.destroyBuffer) = [] := by
    rw [liveBuffers_map_destroy]
    apply List.filter_eq_nil_iff.mpr
    intro x hx
    simp [hx]
  cases osp with
  | some sp => exact key
  | none => exact key

theorem two_gens_run (frames : List Nat) (s : Example) (p₁ p₂ : List Event)
    (h : RetireInv s) (heq : runEvents s frames = p₁ ++ p₂) :
    ∃ g₁ g₂, ∀ x ∈ liveBuffers s.prev_temp_buffers p₁, x.gen = g₁ ∨ x.gen = g₂ := by
  induction frames generalizing s p₁ p₂ with
  | nil =>
    have hp : p₁ = [] := (List.append_eq_nil.mp heq.symm).1
    subst hp
    refine ⟨s.prev_sync_point.getD 0, s.prev_sync_point.getD 0, ?_⟩
    intro x hx
    left
    have hg := (h x hx).1
    rw [← hg]
    rfl
  | cons k rest ih =>
    rw [runEvents] at heq
    rcases List.append_eq_append_iff.mp heq with ⟨a', ha1, ha2⟩ | ⟨c', hc1, hc2⟩
    · subst ha1
      rw [liveBuffers_append, liveBuffers_renderEvents s k h]
      exact ih (renderState s k) a' p₂ (retireInv_renderState k h) ha2
    · refine ⟨s.prev_sync_point.getD s.submits, s.submits, ?_⟩
      intro x hx
      rcases mem_liveBuffers hx with hmem | halloc
      · left
        have hg := (h x hmem).1
        rw [← hg]
        rfl
      · right
        have hsub : x ∈ allocsIn (renderEvents s k) := by
          rw [hc1, allocsIn_append]
          exact List.mem_append_left _ halloc
        rw [allocsIn_renderEvents] at hsub
        exact mem_newBuffers hsub

/-- C4: at any point of any program trace — between frames or in the middle
of a render or shutdown step — the live (allocated and not yet destroyed)
ephemeral buffers span at most two generations: the one being recorded and
the one pending drain from the previous frame. -/
theorem C4_at_most_two_generations (initK : Nat) (frames : List Nat)
    (p₁ p₂ : List Event) (h : fullTrace initK frames = p₁ ++ p₂) :
    ∃ g₁ g₂, ∀ b ∈ liveAfter p₁, b.gen = g₁ ∨ b.gen = g₂ := by
  rw [fullTrace] at h
  rcases List.append_eq_append_iff.mp h with ⟨a', ha1, ha2⟩ | ⟨c', hc1, hc2⟩
  · subst ha1
    have hfin := @retireInv_runState (initK :: frames) emptyExample retireInv_empty
    refine ⟨(runState emptyExample (initK :: frames)).prev_sync_point.getD 0,
      (runState emptyExample (initK :: frames)).prev_sync_point.getD 0, ?_⟩
    intro x hx
    have hx' : x ∈ liveBuffers
        ((runState emptyExample (initK :: frames)).prev_temp_buffers) a' := by
      have h1 : liveBuffers [] (runEvents emptyExample (initK :: frames)) =
          (runState emptyExample (initK :: frames)).prev_temp_buffers :=
        liveBuffers_runEvents (initK :: frames) emptyExample retireInv_empty
      have h2 : liveAfter (runEvents emptyExample (initK :: frames) ++ a') =
          liveBuffers (liveBuffers [] (runEvents emptyExample (initK :: frames))) a' :=
        liveBuffers_append [] _ a'
      rw [h2, h1] at hx
      exact hx
    rcases mem_liveBuffers hx' with hmem | halloc
    · left
      have hg := (hfin x hmem).1
      rw [← hg]
      rfl
    · exfalso
      have hsub : x ∈ allocsIn (destroyEvents (runState emptyExample (initK :: frames))) := by
        rw [ha2, allocsIn_append]
        exact List.mem_append_left _ halloc
      rw [allocsIn_destroyEvents] at hsub
      simp at hsub
  · exact two_gens_run (initK :: frames) emptyExample p₁ c' retireInv_empty hc1

theorem C4_witness :
    ∃ g₁ g₂, ∀ b ∈ liveAfter
        [Event.allocBuffer ⟨0, 0⟩, Event.submit 0, Event.allocBuffer ⟨1, 0⟩],
      b.gen = g₁ ∨ b.gen = g₂ :=
  C4_at_most_two_generations 1 [1]
    [Event.allocBuffer ⟨0, 0⟩, Event.submit 0, Event.allocBuffer ⟨1, 0⟩]
    [Event.submit 1, Event.waitFor 0 unboundedTimeoutMs, Event.destroyBuffer ⟨0, 0⟩,
      Event.waitFor 1 unboundedTimeoutMs, Event.destroyBuffer ⟨1, 0⟩]
    rfl

theorem destroyEvents_some {s : Example} {sp : Nat} (h : s.prev_sync_point = some sp) :
    destroyEvents s = Event.waitFor sp unboundedTimeoutMs ::
      s.prev_temp_buffers.map Event.destroyBuffer := by
  obtain ⟨bufs, osp, n⟩ := s
  simp only at h
  subst h
  rfl

theorem run_sync_some (frames : List Nat) (s : Example)
    (hs : ∃ sp, s.prev_sync_point = some sp) :
    ∃ sp, (runState s frames).prev_sync_point = some sp := by
  induction frames generalizing s with
  | nil => exact hs
  | cons k rest ih =>
    refine ih (renderState s k) ⟨s.submits, ?_⟩
    obtain ⟨bufs, osp, n⟩ := s
    cases osp <;> rfl

/-- C5: the shutdown drain (`Example::destroy`) waits on the pending
generation's completion signal with the unbounded timeout and then frees
every buffer of that generation; after the full program trace no ephemeral
buffer remains live, and the drained state holds no pending buffers. -/
theorem C5_shutdown_drain (initK : Nat) (frames : List Nat) :
    liveAfter (fullTrace initK frames) = []
    ∧ (∃ sp, destroyEvents (runState emptyExample (initK :: frames)) =
        Event.waitFor sp unboundedTimeoutMs ::
          (runState emptyExample (initK :: frames)).prev_temp_buffers.map
            Event.destroyBuffer)
    ∧ (destroyState (runState emptyExample (initK :: frames))).prev_temp_buffers = [] := by
  refine ⟨?_, ?_, rfl⟩
  · rw [fullTrace]
    show liveBuffers [] (_ ++ _) = []
    rw [liveBuffers_append]
    have h1 : liveBuffers [] (runEvents emptyExample (initK :: frames)) =
        (runState emptyExample (initK :: frames)).prev_temp_buffers :=
      liveBuffers_runEvents (initK :: frames) emptyExample retireInv_empty
    rw [h1]
    exact liveBuffers_destroyEvents _
  · have hstep : (renderState emptyExample initK).prev_sync_point = some 0 := rfl
    obtain ⟨sp, hsp⟩ := run_sync_some frames (renderState emptyExample initK) ⟨0, hstep⟩
    exact ⟨sp, destroyEvents_some hsp⟩

theorem from_rotation_x_zero : from_rotation_x 0 = 1 := by
  rw [from_rotation_x]
  ext <;> simp

theorem from_rotation_y_zero : from_rotation_y 0 = 1 := by
  rw [from_rotation_y]
  ext <;> simp

theorem rotate_vec_one (v : Vec3) : rotate_vec 1 v = v := by
  rw [rotate_vec, star_one, mul_one, one_mul]
  rfl

/-- C6: while a drag is tracking with reference `(rx, ry)` and snapshot
`base`, a pointer move to `(px, py)` sets the orientation to
`base ∘ pitch (k·(py−ry)) ∘ yaw (k·(px−rx))` exactly as the spec's formula
states, leaves the reference and snapshot untouched, and the result depends
only on the displacement: a drag with any other reference `(rx', ry')`
moved by the same displacement produces the same orientation. -/
theorem C6_tracking_drag_orientation (cam : Camera) (base : Quaternion ℝ)
    (rx ry px py : ℝ) :
    handle_event ⟨cam, some ⟨some (rx, ry), base⟩⟩ (InputEvent.cursor_moved px py)
      = ⟨{ cam with rot := spec_drag_orientation base rotate_speed rx ry px py },
          some ⟨some (rx, ry), base⟩⟩
    ∧ ∀ rx' ry',
        handle_event ⟨cam, some ⟨some (rx', ry'), base⟩⟩
            (InputEvent.cursor_moved (rx' + (px - rx)) (ry' + (py - ry)))
          = ⟨{ cam with rot := spec_drag_orientation base rotate_speed rx ry px py },
              some ⟨some (rx', ry'), base⟩⟩ := by
  constructor
  · show LoopState.mk
        { cam with rot := base * from_rotation_x ((py - ry) * rotate_speed) *
            from_rotation_y ((px - rx) * rotate_speed) }
        (some ⟨some (rx, ry), base⟩) = _
    rw [spec_drag_orientation, mul_comm rotate_speed (py - ry),
      mul_comm rotate_speed (px - rx)]
  · intro rx' ry'
    show LoopState.mk
        { cam with rot := base * from_rotation_x ((ry' + (py - ry) - ry') * rotate_speed) *
            from_rotation_y ((rx' + (px - rx) - rx') * rotate_speed) }
        (some ⟨some (rx', ry'), base⟩) = _
    rw [add_sub_cancel_left, add_sub_cancel_left, spec_drag_orientation,
      mul_comm rotate_speed (py - ry), mul_comm rotate_speed (px - rx)]

/-- C7 counterexample: pressing the rotation key Q on a camera with identity
orientation yields orientation `from_rotation_z rotate_speed_z`, which is
not a rotation about the vertical (y, yaw) axis for any angle: its `k`
component is `sin (rotate_speed_z / 2) ≠ 0` while every y-axis rotation has
`k` component `0`.  The key rotation is therefore not a rotation about the
vertical roll-free axis. -/
theorem C7_counterexample :
    ¬ ∃ θ : ℝ, (handle_key ⟨⟨⟨2.7, 1.6, 2.1⟩, 1, 0.8, 1000⟩, none⟩ Key.q).camera.rot
        = from_rotation_y θ := by
  rintro ⟨θ, h⟩
  have h1 : (handle_key ⟨⟨⟨2.7, 1.6, 2.1⟩, 1, 0.8, 1000⟩, none⟩ Key.q).camera.rot
      = from_rotation_z rotate_speed_z := by
    show (1 : Quaternion ℝ) * from_rotation_z rotate_speed_z = from_rotation_z rotate_speed_z
    exact one_mul _
  rw [h1] at h
  have h2 : Real.sin (rotate_speed_z / 2) = 0 := congrArg QuaternionAlgebra.imK h
  have h3 : 0 < Real.sin (rotate_speed_z / 2) := by
    apply Real.sin_pos_of_pos_of_lt_pi
    · rw [rotate_speed_z]
      norm_num
    · rw [rotate_speed_z]
      have hpi := Real.pi_gt_d6
      norm_num
      linarith
  rw [h2] at h3
  exact lt_irrefl 0 h3

/-- C7 amended: each press of Q (resp. E) composes the fixed-angle rotation
`from_rotation_z (±rotate_speed_z)` — a rotation about the camera-local z
(forward/roll) axis, not the vertical axis — onto the right of the current
orientation, independently of any active drag gesture (the drag state is
neither read nor modified). -/
theorem C7_amended_key_rotation (st : LoopState) :
    handle_event st (InputEvent.key_pressed Key.q)
      = { st with camera :=
          { st.camera with rot := st.camera.rot * from_rotation_z rotate_speed_z } }
    ∧ handle_event st (InputEvent.key_pressed Key.e)
      = { st with camera :=
          { st.camera with rot := st.camera.rot * from_rotation_z (-rotate_speed_z) } }
    ∧ (handle_event st (InputEvent.key_pressed Key.q)).drag_start = st.drag_start :=
  ⟨rfl, rfl, rfl⟩

/-- C8: a press of the forward key W translates the position by the forward
step rotated by the current orientation, `n` presses translate it by `n`
times that vector while the orientation never changes, and from position
`(2.7, 1.6, 2.1)` with identity orientation and step `1.0` a single press
yields position `(2.7, 1.6, 3.1)`. -/
theorem C8_forward_key_translation (st : LoopState) (c : Camera) (n : Nat) :
    handle_event st (InputEvent.key_pressed Key.w)
      = { st with camera := press_forward st.camera }
    ∧ (press_forward c).pos = c.pos.add (rotate_vec c.rot ⟨0, 0, move_speed⟩)
    ∧ (press_forward_n n c).rot = c.rot
    ∧ (press_forward_n n c).pos
        = c.pos.add (Vec3.smul (n : ℝ) (rotate_vec c.rot ⟨0, 0, move_speed⟩))
    ∧ (press_forward_n 1 forward_scenario_camera).pos = ⟨2.7, 1.6, 3.1⟩ := by
  refine ⟨rfl, rfl, ?_, ?_, ?_⟩
  · induction n generalizing c with
    | zero => rfl
    | succ m ih => exact ih (press_forward c)
  · induction n generalizing c with
    | zero =>
      show c.pos = c.pos.add (Vec3.smul ((0 : ℕ) : ℝ) (rotate_vec c.rot ⟨0, 0, move_speed⟩))
      ext <;> simp [Vec3.add, Vec3.smul]
    | succ m ih =>
      rw [show press_forward_n (m + 1) c = press_forward_n m (press_forward c) from rfl,
        ih (press_forward c)]
      show (c.pos.add (rotate_vec c.rot ⟨0, 0, move_speed⟩)).add
          (Vec3.smul ((m : ℕ) : ℝ) (rotate_vec c.rot ⟨0, 0, move_speed⟩))
        = c.pos.add (Vec3.smul (((m + 1 : ℕ)) : ℝ) (rotate_vec c.rot ⟨0, 0, move_speed⟩))
      ext <;> simp [Vec3.add, Vec3.smul] <;> ring
  · show (forward_scenario_camera.pos.add (rotate_vec 1 ⟨0, 0, move_speed⟩))
        = (⟨2.7, 1.6, 3.1⟩ : Vec3)
    rw [rotate_vec_one]
    ext <;> norm_num [Vec3.add, forward_scenario_camera, move_speed]

/-- C9: a drag that produces no rotation-inducing displacement leaves the
orientation exactly as it was at press time: press-release changes nothing,
press-move-release changes nothing (the first pointer move only records the
reference, applying no rotation), and even a second move with zero
displacement from the reference recomputes the orientation to exactly the
press-time snapshot. -/
theorem C9_drag_without_displacement (st : LoopState) (px py : ℝ) :
    (run_input st [InputEvent.mouse_left true, InputEvent.mouse_left false]).camera
      = st.camera
    ∧ (run_input st [InputEvent.mouse_left true, InputEvent.cursor_moved px py,
        InputEvent.mouse_left false]).camera = st.camera
    ∧ (run_input st [InputEvent.mouse_left true, InputEvent.cursor_moved px py]).drag_start
        = some ⟨some (px, py), st.camera.rot⟩
    ∧ (run_input st [InputEvent.mouse_left true, InputEvent.cursor_moved px py,
        InputEvent.cursor_moved px py, InputEvent.mouse_left false]).camera.rot
        = st.camera.rot := by
  refine ⟨rfl, rfl, rfl, ?_⟩
  show st.camera.rot * from_rotation_x ((py - py) * rotate_speed) *
      from_rotation_y ((px - px) * rotate_speed) = st.camera.rot
  rw [sub_self, sub_self, zero_mul, from_rotation_x_zero,
    from_rotation_y_zero, mul_one, mul_one]

/-- C10: the camera updates are frame-disjoint — a translation changes only
the position, while a key rotation and a tracking pointer move change only
the orientation; field of view and far-plane depth are never touched. -/
theorem C10_frame_disjoint_updates (c : Camera) (off : Vec3) (a : ℝ)
    (st : LoopState) (px py : ℝ) :
    ((move_camera_by c off).rot = c.rot ∧ (move_camera_by c off).fov_y = c.fov_y
      ∧ (move_camera_by c off).depth = c.depth)
    ∧ ((rotate_camera_z_by c a).pos = c.pos ∧ (rotate_camera_z_by c a).fov_y = c.fov_y
      ∧ (rotate_camera_z_by c a).depth = c.depth)
    ∧ ((handle_event st (InputEvent.cursor_moved px py)).camera.pos = st.camera.pos
      ∧ (handle_event st (InputEvent.cursor_moved px py)).camera.fov_y = st.camera.fov_y
      ∧ (handle_event st (InputEvent.cursor_moved px py)).camera.depth = st.camera.depth) := by
  refine ⟨⟨rfl, rfl, rfl⟩, ⟨rfl, rfl, rfl⟩, ?_⟩
  obtain ⟨cam, ds⟩ := st
  cases ds with
  | none => exact ⟨rfl, rfl, rfl⟩
  | some drag =>
    obtain ⟨osp, base⟩ := drag
    cases osp with
    | none => exact ⟨rfl, rfl, rfl⟩
    | some r => exact ⟨rfl, rfl, rfl⟩
